import Mathlib

/-!
Verification of the runtime acquisition and launch layer of the
HadoukenIO node-adapter repository.

The definitions below are a shallow embedding of the TypeScript source:

* `src/launcher/util.ts` : `resolveRuntimeVersion`, `first`, `takeWhile`,
  `resolveDir`, `rmDir`.
* `src/launcher/mac-launch.ts` : `download`, `getRuntimePath`, `install`,
  `launch`.
* `src/unnamed/part_000` : the second implementation of
  `resolveRuntimeVersion` (embedded as `resolveRuntimeVersionP0`).

Network access is modelled by a `Remote` environment (the body served by the
version-index endpoint, the channel-resolution endpoint, and availability of
the per-version archive), with every network interaction recorded in an
explicit call trace.  The filesystem is modelled as the set of existing
directory paths and file paths, a path being the list of its segments.
-/

deriving instance DecidableEq for Except

namespace NodeAdapter

/-- Splitting a character list at every occurrence of the separator, the
semantics of the JavaScript `String.prototype.split` with a one-character
separator: the empty input yields one empty piece, and adjacent separators
yield empty pieces. -/
def splitChars (sep : Char) : List Char → List (List Char)
  | [] => [[]]
  | c :: cs =>
    match splitChars sep cs with
    | [] => [[c]]
    | h :: t => if c = sep then [] :: h :: t else (c :: h) :: t

/-- The JavaScript split on the dot character used on version specs. -/
def splitDot (s : String) : List String :=
  (splitChars '.' s.data).map (fun l => String.mk l)

/-- The JavaScript split on the space character used on `additionalArgument`. -/
def splitSpace (s : String) : List String :=
  (splitChars ' ' s.data).map (fun l => String.mk l)

/-- Splitting a character list at every non-overlapping occurrence of the
two-character CRLF separator, scanned left to right: the semantics of the
JavaScript split with that separator. -/
def splitCharsCRLF : List Char → List (List Char)
  | [] => [[]]
  | [c] => [[c]]
  | c :: d :: cs =>
    if c = '\r' ∧ d = '\n' then
      [] :: splitCharsCRLF cs
    else
      match splitCharsCRLF (d :: cs) with
      | [] => [[c]]
      | h :: t => (c :: h) :: t

/-- The JavaScript split on the CRLF separator used on the version-index body. -/
def splitCRLF (s : String) : List String :=
  (splitCharsCRLF s.data).map (fun l => String.mk l)

/-- The JavaScript join with the dot character used on version components. -/
def joinDot : List String → String
  | [] => ""
  | [x] => x
  | x :: y :: t => x ++ "." ++ joinDot (y :: t)

/-- The regular expression test `/^\d+$/.test(x)` of the source: `x` is
nonempty and consists of decimal digits only. -/
def isNumeric (x : String) : Bool :=
  !x.data.isEmpty && x.data.all Char.isDigit

/-- The local fold used by `takeWhile` in both `util.ts` and `part_000`:
a `reduce` carrying a `take` flag and the accumulated values. -/
def takeWhileTS (p : String → Bool) (arr : List String) : List String :=
  (arr.foldl
    (fun (acc : Bool × List String) x =>
      if acc.1 && p x then (true, acc.2 ++ [x]) else (false, acc.2))
    (true, [])).2

/-- The `first` helper of `util.ts` and `part_000`: the first element of the
array satisfying the predicate, or `null`. -/
def first {α : Type} (arr : List α) (p : α → Bool) : Option α :=
  match arr with
  | [] => none
  | x :: xs => if p x then some x else first xs p

/-- A network interaction performed during version resolution. -/
inductive NetCall where
  | getVersions : NetCall
  | getChannel : String → NetCall
deriving DecidableEq, Repr

/-- Errors surfaced by the launcher layer.  Each constructor corresponds to
one `Error` value thrown by the source; `installFailed` carries the version
strings interpolated into its message. -/
inductive Err where
  | httpFailed : Err
  | resolveFailed : Err
  | downloadNotFound : Err
  | installFailed (versionOrChannel : String) (version : String) : Err
  | mkdirOther : Err
deriving DecidableEq, Repr

/-- The remote environment consulted by resolution and installation: the body
returned by the version-index endpoint (`none` when the request fails), the
channel-resolution endpoint, and whether the archive download for a given
version succeeds (`false` models the 404 response). -/
structure Remote where
  versionsBody : Option String
  channel : String → Option String
  archiveOk : String → Bool

/-- The final channel-resolution request of both `resolveRuntimeVersion`
implementations: `get(runtime/<versionOrChannel>)`, wrapped so that a failure
becomes the `Could not resolve runtime version` error. -/
def channelLookup (remote : Remote) (versionOrChannel : String)
    (prior : List NetCall) : Except Err String × List NetCall :=
  match remote.channel versionOrChannel with
  | some v => (.ok v, prior ++ [.getChannel versionOrChannel])
  | none => (.error Err.resolveFailed, prior ++ [.getChannel versionOrChannel])

/-- Embedding of `resolveRuntimeVersion` from `src/launcher/util.ts`: a dotted spec with
more than one component, each numeric or a wildcard, is a version pattern;
when fewer than four leading components are fixed the version index is
fetched and the first prefix match returned, otherwise the spec is returned
unchanged; anything else (or a pattern with no index match) is resolved as a
channel name. -/
def resolveRuntimeVersion (remote : Remote) (versionOrChannel : String) :
    Except Err String × List NetCall :=
  let splitVersion := splitDot versionOrChannel
  let isVersion := decide (1 < splitVersion.length) &&
    splitVersion.all (fun x => x == "*" || isNumeric x)
  if isVersion then
    let mustMatch := takeWhileTS (fun x => x != "*") splitVersion
    if (4 : Int) - (mustMatch.length : Int) > 0 then
      match remote.versionsBody with
      | none => (.error Err.httpFailed, [.getVersions])
      | some res =>
        let versions := splitCRLF res
        match first versions (fun v =>
            joinDot ((splitDot v).take mustMatch.length) ==
            joinDot mustMatch) with
        | some m => (.ok m, [.getVersions])
        | none => channelLookup remote versionOrChannel [.getVersions]
    else
      (.ok versionOrChannel, [])
  else
    channelLookup remote versionOrChannel []

/-- Embedding of `resolveRuntimeVersion` from `src/unnamed/part_000`: identical except that
a version pattern must have exactly four components, and the wildcard count
is compared against the component count rather than the constant four. -/
def resolveRuntimeVersionP0 (remote : Remote) (versionOrChannel : String) :
    Except Err String × List NetCall :=
  let splitVersion := splitDot versionOrChannel
  let isVersion := decide (splitVersion.length = 4) &&
    splitVersion.all (fun x => x == "*" || isNumeric x)
  if isVersion then
    let mustMatch := takeWhileTS (fun x => x != "*") splitVersion
    if (splitVersion.length : Int) - (mustMatch.length : Int) > 0 then
      match remote.versionsBody with
      | none => (.error Err.httpFailed, [.getVersions])
      | some res =>
        let versions := splitCRLF res
        match first versions (fun v =>
            joinDot ((splitDot v).take mustMatch.length) ==
            joinDot mustMatch) with
        | some m => (.ok m, [.getVersions])
        | none => channelLookup remote versionOrChannel [.getVersions]
    else
      (.ok versionOrChannel, [])
  else
    channelLookup remote versionOrChannel []

/-- Strict containment of filesystem paths: `p` is a proper ancestor of `q`.
A path is the list of its segments. -/
def strictUnder (p q : List String) : Prop :=
  p.isPrefixOf q = true ∧ p ≠ q

instance (p q : List String) : Decidable (strictUnder p q) :=
  inferInstanceAs (Decidable (_ ∧ _))

/-- The filesystem model: the set of existing directory paths and existing
file paths.  The real filesystem is a tree; the launcher only ever consults
existence of whole paths (`fs.stat`, `fs.mkdir`, recursive `rmDir`), which
this set model captures. -/
structure FS where
  dirs : List (List String)
  files : List (List String)
deriving DecidableEq, Repr

/-- The outcome of one `fs.mkdir` call: the `EEXIST` error carries `err.path`
(the path handed to `mkdir`); every other failure is collapsed into `other`. -/
inductive MkErr where
  | eexist (p : List String)
  | other
deriving DecidableEq, Repr

/-- Model of `fs.mkdir`: fails with `EEXIST` when the path already exists, fails
otherwise (`ENOENT` and friends) when the parent directory is missing, and
creates the directory when neither holds. -/
def mkdirFS (fs : FS) (p : List String) : Except MkErr FS :=
  if p ∈ fs.dirs ∨ p ∈ fs.files then .error (.eexist p)
  else if p.dropLast ∈ fs.dirs then .ok { fs with dirs := p :: fs.dirs }
  else .error .other

/-- Recursive `rmDir(dirPath, removeSelf)` of `util.ts`: when `dirPath` is
not a readable directory the call returns silently; otherwise every entry
below it is deleted recursively, and the directory itself as well when
`removeSelf` is set. -/
def rmDirFS (fs : FS) (p : List String) (removeSelf : Bool) : FS :=
  if p ∈ fs.dirs then
    { dirs := fs.dirs.filter
        (fun q => !(decide (strictUnder p q) || (removeSelf && q == p))),
      files := fs.files.filter (fun q => !(decide (strictUnder p q))) }
  else fs

/-- One step of the directory-creation fold shared by `resolveDir`
(`util.ts`) and `getRuntimePath` (`mac-launch.ts`): append the next segment,
attempt `mkdir`, adopt the path carried by an `EEXIST` error, and propagate
every other error. -/
def resolveDirStep (acc : Except MkErr (List String) × FS) (next : String) :
    Except MkErr (List String) × FS :=
  match acc with
  | (.error e, fs) => (.error e, fs)
  | (.ok prev, fs) =>
    match mkdirFS fs (prev ++ [next]) with
    | .ok fs2 => (.ok (prev ++ [next]), fs2)
    | .error (.eexist q) => (.ok q, fs)
    | .error .other => (.error .other, fs)

/-- The segment-by-segment directory creation fold, implemented identically
by `resolveDir` in `util.ts` and inline in `getRuntimePath` of
`mac-launch.ts`. -/
def resolveDir (fs : FS) (base : List String) (paths : List String) :
    Except MkErr (List String) × FS :=
  paths.foldl resolveDirStep (.ok base, fs)

/-- Embedding of `getRuntimePath` from `mac-launch.ts`: create or adopt
`<home>/OpenFin/Runtime/<version>` segment by segment. -/
def getRuntimePath (fs : FS) (home : List String) (version : String) :
    Except MkErr (List String) × FS :=
  resolveDir fs home ["OpenFin", "Runtime", version]

/-- An observable side effect of installation and launching. -/
inductive Effect where
  | netGetVersions : Effect
  | netGetChannel (channel : String) : Effect
  | netDownload (version : String) : Effect
  | extract (file : List String) (dest : List String) : Effect
  | chmod (p : List String) : Effect
  | spawn (cmd : List String) (args : List String) : Effect
deriving DecidableEq, Repr

/-- Reading a network call of the resolver as an effect. -/
def NetCall.toEffect : NetCall → Effect
  | .getVersions => .netGetVersions
  | .getChannel c => .netGetChannel c

/-- The relative path of the runtime binary below the installation
directory, `OpenFin.app/Contents/MacOS/OpenFin` in `install`. -/
def binRel : List String := ["OpenFin.app", "Contents", "MacOS", "OpenFin"]

/-- Embedding of `download` from `mac-launch.ts`: clear the contents of the installation
folder, create the `tmp` staging directory (errors swallowed), download the
archive into `tmp/tmp` (a 404 rejects), extract it into the folder, and
remove the staging directory.  Extraction by the external `unzip` is
modelled as creating the runtime binary below the folder. -/
def download (remote : Remote) (fs : FS) (version : String)
    (folder : List String) : Except Err (List String) × FS × List Effect :=
  let fs1 := rmDirFS fs folder false
  let fs2 := match mkdirFS fs1 (folder ++ ["tmp"]) with
    | .ok f => f
    | .error _ => fs1
  if remote.archiveOk version then
    let fs3 : FS := { fs2 with files := (folder ++ ["tmp", "tmp"]) :: fs2.files }
    let fs4 : FS := { fs3 with files := (folder ++ binRel) :: fs3.files }
    let fs5 := rmDirFS fs4 (folder ++ ["tmp"]) true
    (.ok folder, fs5,
      [Effect.netDownload version, Effect.extract (folder ++ ["tmp", "tmp"]) folder])
  else
    (.error Err.downloadNotFound, fs2, [Effect.netDownload version])

/-- Embedding of `install` from `mac-launch.ts`: resolve the version, create or adopt the
installation path, and either repair permissions on an already-present
binary or download and extract the runtime, wrapping any download failure
into the `Could not install runtime` error. -/
def install (remote : Remote) (home : List String) (fs : FS)
    (versionOrChannel : String) : Except Err (List String) × FS × List Effect :=
  match resolveRuntimeVersion remote versionOrChannel with
  | (.error e, calls) => (.error e, fs, calls.map NetCall.toEffect)
  | (.ok version, calls) =>
    match getRuntimePath fs home version with
    | (.error _, fs1) => (.error Err.mkdirOther, fs1, calls.map NetCall.toEffect)
    | (.ok rtFolder, fs1) =>
      let rtPath := rtFolder ++ binRel
      if rtPath ∈ fs1.files ∨ rtPath ∈ fs1.dirs then
        (.ok rtPath, fs1, calls.map NetCall.toEffect ++ [Effect.chmod rtPath])
      else
        match download remote fs1 version rtFolder with
        | (.ok _, fs2, deffs) =>
          (.ok rtPath, fs2, calls.map NetCall.toEffect ++ deffs)
        | (.error _, fs2, deffs) =>
          (.error (Err.installFailed versionOrChannel version), fs2,
            calls.map NetCall.toEffect ++ deffs)

/-- The `config.runtime` record consumed by `launch`. -/
structure RuntimeConfig where
  version : String
  fallbackVersion : Option String := none
  securityRealm : Option String := none
  verboseLogging : Bool := false
  additionalArgument : Option String := none
deriving DecidableEq, Repr

/-- A spawned child process: the binary path and its argument vector. -/
structure Spawned where
  cmd : List String
  args : List String
deriving DecidableEq, Repr

/-- The argument vector built by `launch`: caller-supplied extra arguments
split on spaces, then `--startup-url` pushed to the front, then the
version keyword (the fallback version when the fallback was used), the
channel name, and the optional security-realm and verbose flags.  An absent
or empty `additionalArgument` or `securityRealm` is falsy in the source. -/
def launchArgs (config : RuntimeConfig) (manifestLocation namedPipeName : String)
    (fb : Bool) : List String :=
  let args := if (config.additionalArgument.getD "") ≠ "" then
      splitSpace (config.additionalArgument.getD "")
    else []
  let args := ("--startup-url=" ++ manifestLocation) :: args
  let vk := if fb then config.fallbackVersion.getD "undefined" else config.version
  let args := args ++ ["--version-keyword=" ++ vk]
  let args := args ++ ["--runtime-information-channel-v6=" ++ namedPipeName]
  let args := if (config.securityRealm.getD "") ≠ "" then
      args ++ ["--security-realm=" ++ config.securityRealm.getD ""]
    else args
  if config.verboseLogging then args ++ ["--v=1", "--attach-console"] else args

/-- Embedding of `launch` from `mac-launch.ts`: install the requested version, fall back to
`fallbackVersion` (when configured) if that fails, and spawn the installed
binary with the argument vector of `launchArgs`; a failing fallback install
rejects with the error of the fallback attempt. -/
def launch (remote : Remote) (home : List String) (fs : FS)
    (config : RuntimeConfig) (manifestLocation namedPipeName : String) :
    Except Err Spawned × FS × List Effect :=
  match install remote home fs config.version with
  | (.ok runtimePath, fs1, eff1) =>
    let args := launchArgs config manifestLocation namedPipeName false
    (.ok ⟨runtimePath, args⟩, fs1, eff1 ++ [Effect.spawn runtimePath args])
  | (.error e, fs1, eff1) =>
    match config.fallbackVersion with
    | none => (.error e, fs1, eff1)
    | some fbv =>
      match install remote home fs1 fbv with
      | (.ok runtimePath, fs2, eff2) =>
        let args := launchArgs config manifestLocation namedPipeName true
        (.ok ⟨runtimePath, args⟩, fs2, eff1 ++ eff2 ++ [Effect.spawn runtimePath args])
      | (.error e2, fs2, eff2) => (.error e2, fs2, eff1 ++ eff2)

/-! Concrete fixtures used to evaluate the definitions -/

/-- A remote serving the three-entry version index of the specification
scenario. -/
def remoteIdx : Remote :=
  ⟨some "10.65.1.2\r\n10.65.0.9\r\n9.0.0.0", fun _ => none, fun _ => false⟩

/-- A remote serving a two-entry version index. -/
def remoteIdx2 : Remote :=
  ⟨some "10.65.1.2\r\n9.0.0.0", fun _ => none, fun _ => false⟩

/-- A remote whose index contains a `10.5` prefix match and whose channel
endpoint also resolves `10.5`. -/
def remoteShort : Remote :=
  ⟨some "10.5.1.2\r\n9.0.0.0",
   fun c => if c = "10.5" then some "9.9.9.9" else none,
   fun _ => false⟩

/-- A remote with every archive available and both endpoints failing. -/
def remoteArch : Remote := ⟨none, fun _ => none, fun _ => true⟩

/-- A remote with no archive available. -/
def remoteNoArch : Remote := ⟨none, fun _ => none, fun _ => false⟩

/-- A filesystem holding an installed `10.65.1.2` runtime binary. -/
def fsBinW : FS :=
  ⟨[["h"], ["h", "OpenFin"], ["h", "OpenFin", "Runtime"],
    ["h", "OpenFin", "Runtime", "10.65.1.2"]],
   [["h", "OpenFin", "Runtime", "10.65.1.2",
     "OpenFin.app", "Contents", "MacOS", "OpenFin"]]⟩

/-- A filesystem holding only the vendor directory chain. -/
def fsChainW : FS :=
  ⟨[["h"], ["h", "OpenFin"], ["h", "OpenFin", "Runtime"]], []⟩

/-- A filesystem whose installation directory holds a pre-existing file. -/
def fsKeepW : FS := ⟨[["h"], ["h", "R"]], [["h", "R", "keep.txt"]]⟩

/-- A filesystem in which an intermediate installation segment already
exists. -/
def fsAdoptW : FS := ⟨[["h"], ["h", "OpenFin"]], []⟩

/-- The launch configuration of the fallback scenario: a version whose
archive is unavailable, with an installed fallback. -/
def cfgC4 : RuntimeConfig := ⟨"1.2.3.4", some "10.65.1.2", none, false, none⟩

/-- A launch configuration carrying caller-supplied extra arguments. -/
def cfgC5 : RuntimeConfig := ⟨"10.65.1.2", none, none, false, some "--foo --bar"⟩

/-- A launch configuration whose requested and fallback versions both fail
to install. -/
def cfgC6 : RuntimeConfig := ⟨"1.2.3.4", some "5.6.7.8", none, false, none⟩

/-- A launch configuration exercising every optional argument. -/
def cfgC5w : RuntimeConfig :=
  ⟨"10.65.1.2", none, some "realm", true, some "--a --b"⟩

/-- The filesystem left by a failed install of `1.2.3.4` on `fsChainW`. -/
def fs1C6 : FS :=
  ⟨[["h", "OpenFin", "Runtime", "1.2.3.4", "tmp"],
    ["h", "OpenFin", "Runtime", "1.2.3.4"],
    ["h"], ["h", "OpenFin"], ["h", "OpenFin", "Runtime"]], []⟩

/-- The filesystem left by the subsequent failed install of `5.6.7.8`. -/
def fs2C6 : FS :=
  ⟨[["h", "OpenFin", "Runtime", "5.6.7.8", "tmp"],
    ["h", "OpenFin", "Runtime", "5.6.7.8"],
    ["h", "OpenFin", "Runtime", "1.2.3.4", "tmp"],
    ["h", "OpenFin", "Runtime", "1.2.3.4"],
    ["h"], ["h", "OpenFin"], ["h", "OpenFin", "Runtime"]], []⟩

/-! Helper lemmas about the list and string primitives -/

theorem twStep_foldl_false (p : String → Bool) (l : List String)
    (acc : List String) :
    l.foldl
      (fun (acc : Bool × List String) x =>
        if acc.1 && p x then (true, acc.2 ++ [x]) else (false, acc.2))
      (false, acc) = (false, acc) := by
  induction l with
  | nil => rfl
  | cons x xs ih => simpa using ih

theorem twStep_foldl_true (p : String → Bool) (l : List String)
    (acc : List String) :
    (l.foldl
      (fun (acc : Bool × List String) x =>
        if acc.1 && p x then (true, acc.2 ++ [x]) else (false, acc.2))
      (true, acc)).2 = acc ++ l.takeWhile p := by
  induction l generalizing acc with
  | nil => simp
  | cons x xs ih =>
    by_cases hp : p x = true
    · simp only [List.foldl_cons, Bool.true_and, hp, if_pos, List.takeWhile_cons,
        ih (acc ++ [x])]
      simp
    · simp only [List.foldl_cons, Bool.true_and, hp, if_neg, Bool.false_eq_true,
        not_false_iff, List.takeWhile_cons]
      rw [twStep_foldl_false]
      simp [hp]

theorem takeWhileTS_eq (p : String → Bool) (l : List String) :
    takeWhileTS p l = l.takeWhile p := by
  unfold takeWhileTS
  rw [twStep_foldl_true]
  simp

theorem takeWhile_of_all (p : String → Bool) (l : List String)
    (h : ∀ x ∈ l, p x = true) : l.takeWhile p = l := by
  induction l with
  | nil => rfl
  | cons x xs ih =>
    rw [List.takeWhile_cons, if_pos (h x (by simp))]
    rw [ih (fun y hy => h y (by simp [hy]))]

theorem takeWhile_append_of_all (p : String → Bool) (pre rest : List String)
    (h : ∀ x ∈ pre, p x = true) :
    (pre ++ rest).takeWhile p = pre ++ rest.takeWhile p := by
  induction pre with
  | nil => rfl
  | cons x xs ih =>
    rw [List.cons_append, List.takeWhile_cons, if_pos (h x (by simp))]
    rw [ih (fun y hy => h y (by simp [hy])), List.cons_append]

theorem isNumeric_ne_star (x : String) (h : isNumeric x = true) :
    (x != "*") = true := by
  rcases eq_or_ne x "*" with rfl | hne
  · exact absurd h (by decide)
  · simpa using hne

/-! Helper lemmas about version resolution -/

theorem resolve_numeric4 (remote : Remote) (v : String)
    (h4 : (splitDot v).length = 4)
    (hnum : ∀ x ∈ splitDot v, isNumeric x = true) :
    resolveRuntimeVersion remote v = (.ok v, []) := by
  have hall : ((splitDot v).all (fun x => x == "*" || isNumeric x)) = true := by
    rw [List.all_eq_true]
    intro x hx
    simp [hnum x hx]
  have htw : takeWhileTS (fun x => x != "*") (splitDot v) = splitDot v := by
    rw [takeWhileTS_eq]
    exact takeWhile_of_all _ _ (fun x hx => isNumeric_ne_star x (hnum x hx))
  unfold resolveRuntimeVersion
  simp only [htw, h4, hall]
  norm_num

theorem resolveP0_numeric4 (remote : Remote) (v : String)
    (h4 : (splitDot v).length = 4)
    (hnum : ∀ x ∈ splitDot v, isNumeric x = true) :
    resolveRuntimeVersionP0 remote v = (.ok v, []) := by
  have hall : ((splitDot v).all (fun x => x == "*" || isNumeric x)) = true := by
    rw [List.all_eq_true]
    intro x hx
    simp [hnum x hx]
  have htw : takeWhileTS (fun x => x != "*") (splitDot v) = splitDot v := by
    rw [takeWhileTS_eq]
    exact takeWhile_of_all _ _ (fun x hx => isNumeric_ne_star x (hnum x hx))
  unfold resolveRuntimeVersionP0
  simp only [htw, h4, hall]
  norm_num

theorem resolve_wildcard (remote : Remote) (spec m body : String)
    (pre wild : List String)
    (hsplit : splitDot spec = pre ++ wild)
    (hlen : pre.length + wild.length = 4)
    (hpre : ∀ x ∈ pre, isNumeric x = true)
    (hwildne : wild ≠ [])
    (hwild : ∀ x ∈ wild, x = "*")
    (hbody : remote.versionsBody = some body)
    (hfirst : first (splitCRLF body)
        (fun v => joinDot ((splitDot v).take pre.length) == joinDot pre) =
      some m) :
    resolveRuntimeVersion remote spec = (.ok m, [NetCall.getVersions]) := by
  have hl : (pre ++ wild).length = 4 := by
    rw [List.length_append]
    exact hlen
  have hall : (pre ++ wild).all (fun x => x == "*" || isNumeric x) = true := by
    rw [List.all_eq_true]
    intro x hx
    rcases List.mem_append.mp hx with h | h
    · simp [hpre x h]
    · simp [hwild x h]
  obtain ⟨w, ws, rfl⟩ : ∃ w ws, wild = w :: ws := by
    cases wild with
    | nil => exact absurd rfl hwildne
    | cons w ws => exact ⟨w, ws, rfl⟩
  have hw : w = "*" := hwild w (by simp)
  have htw : takeWhileTS (fun x => x != "*") (pre ++ w :: ws) = pre := by
    rw [takeWhileTS_eq,
      takeWhile_append_of_all _ _ _ (fun x hx => isNumeric_ne_star x (hpre x hx))]
    rw [List.takeWhile_cons, hw]
    simp
  have hplen : ((4 : Int) - (pre.length : Int) > 0) := by
    have hwl : 1 ≤ (w :: ws).length := by simp
    rw [List.length_append] at hl
    omega
  unfold resolveRuntimeVersion
  rw [hsplit]
  simp only [hl, hall, htw, hbody, hfirst]
  rw [if_pos (by simp), if_pos hplen]

theorem resolve_short_numeric (remote : Remote) (spec m body : String)
    (hlen : (splitDot spec).length = 2 ∨ (splitDot spec).length = 3)
    (hnum : ∀ x ∈ splitDot spec, isNumeric x = true)
    (hbody : remote.versionsBody = some body)
    (hfirst : first (splitCRLF body)
        (fun v => joinDot ((splitDot v).take (splitDot spec).length) ==
          joinDot (splitDot spec)) = some m) :
    resolveRuntimeVersion remote spec = (.ok m, [NetCall.getVersions]) := by
  have hall : (splitDot spec).all (fun x => x == "*" || isNumeric x) = true := by
    rw [List.all_eq_true]
    intro x hx
    simp [hnum x hx]
  have htw : takeWhileTS (fun x => x != "*") (splitDot spec) = splitDot spec := by
    rw [takeWhileTS_eq]
    exact takeWhile_of_all _ _ (fun x hx => isNumeric_ne_star x (hnum x hx))
  have h1 : (1 : Nat) < (splitDot spec).length := by
    rcases hlen with h | h <;> omega
  have h2 : ((4 : Int) - ((splitDot spec).length : Int) > 0) := by
    rcases hlen with h | h <;> rw [h] <;> norm_num
  unfold resolveRuntimeVersion
  simp only [htw, hbody, hfirst]
  rw [if_pos (by simp [h1, hall]), if_pos h2]

theorem resolveP0_not4 (remote : Remote) (spec : String)
    (hlen : (splitDot spec).length ≠ 4) :
    resolveRuntimeVersionP0 remote spec = channelLookup remote spec [] := by
  unfold resolveRuntimeVersionP0
  rw [if_neg (by simp [hlen])]

/-! Helper lemmas about paths and the filesystem model -/

theorem strictUnder_iff (p q : List String) :
    strictUnder p q ↔ p <+: q ∧ p ≠ q := by
  unfold strictUnder
  rw [ List.isPrefixOf_iff_prefix]

theorem not_strictUnder_self (p : List String) : ¬ strictUnder p p := by
  rw [strictUnder_iff]
  simp

theorem strictUnder_append (p l : List String) (h : l ≠ []) :
    strictUnder p (p ++ l) := by
  rw [strictUnder_iff]
  refine ⟨List.prefix_append p l, fun he => h ?_⟩
  have := congrArg List.length he
  rw [List.length_append] at this
  simpa using List.eq_nil_of_length_eq_zero (by omega)

theorem strictUnder_length_lt {p q : List String} (h : strictUnder p q) :
    p.length < q.length := by
  rw [strictUnder_iff] at h
  rcases Nat.lt_or_ge p.length q.length with hlt | hge
  · exact hlt
  · exact absurd (h.1.eq_of_length (le_antisymm h.1.length_le hge)) h.2

theorem not_strictUnder_of_length_le {p q : List String}
    (h : q.length ≤ p.length) : ¬ strictUnder p q :=
  fun hs => absurd (strictUnder_length_lt hs) (by omega)

theorem strictUnder_of_append_left {p q : List String} (a : String)
    (h : strictUnder (p ++ [a]) q) : strictUnder p q := by
  rw [strictUnder_iff] at h ⊢
  have hp : p <+: q := (List.prefix_append p [a]).trans h.1
  refine ⟨hp, fun he => ?_⟩
  have h1 := strictUnder_length_lt (by rw [strictUnder_iff]; exact h)
  rw [List.length_append, ← he] at h1
  simp at h1

theorem not_strictUnder_append_of_ne {p : List String} {a b : String}
    (l : List String) (hab : a ≠ b) :
    ¬ strictUnder (p ++ [a]) (p ++ b :: l) := by
  rw [strictUnder_iff]
  rintro ⟨hpre, -⟩
  rw [List.prefix_append_right_inj, List.cons_prefix_cons] at hpre
  exact hab hpre.1

theorem rmDirFS_of_not_dir (fs : FS) (p : List String) (rs : Bool)
    (h : p ∉ fs.dirs) : rmDirFS fs p rs = fs := by
  unfold rmDirFS
  rw [if_neg h]

theorem rmDirFS_dirs_mem (fs : FS) (p : List String) (rs : Bool)
    (q : List String) (h : p ∈ fs.dirs) :
    q ∈ (rmDirFS fs p rs).dirs ↔
      q ∈ fs.dirs ∧ ¬ strictUnder p q ∧ (rs = true → q ≠ p) := by
  unfold rmDirFS
  rw [if_pos h]
  simp only [List.mem_filter, Bool.not_eq_true', Bool.or_eq_false_iff,
    decide_eq_false_iff_not, Bool.and_eq_false_iff, beq_eq_false_iff_ne]
  constructor
  · rintro ⟨hq, hsu, hrs⟩
    refine ⟨hq, hsu, fun hr => ?_⟩
    rcases hrs with hr' | hne
    · rw [hr] at hr'
      exact absurd hr' (by simp)
    · exact hne
  · rintro ⟨hq, hsu, hrs⟩
    refine ⟨hq, hsu, ?_⟩
    cases rs with
    | false => exact Or.inl rfl
    | true => exact Or.inr (hrs rfl)

theorem rmDirFS_files_mem (fs : FS) (p : List String) (rs : Bool)
    (q : List String) (h : p ∈ fs.dirs) :
    q ∈ (rmDirFS fs p rs).files ↔ q ∈ fs.files ∧ ¬ strictUnder p q := by
  unfold rmDirFS
  rw [if_pos h]
  simp [List.mem_filter]

theorem append_cons_eq (base : List String) (s : String) (l : List String) :
    (base ++ [s]) ++ l = base ++ s :: l := by
  rw [List.append_assoc, List.singleton_append]

theorem mkdirFS_eexist (fs : FS) (p : List String)
    (h : p ∈ fs.dirs ∨ p ∈ fs.files) :
    mkdirFS fs p = .error (.eexist p) := by
  unfold mkdirFS
  rw [if_pos h]

theorem mkdirFS_create (fs : FS) (p : List String)
    (h1 : ¬(p ∈ fs.dirs ∨ p ∈ fs.files)) (h2 : p.dropLast ∈ fs.dirs) :
    mkdirFS fs p = .ok { fs with dirs := p :: fs.dirs } := by
  unfold mkdirFS
  rw [if_neg h1, if_pos h2]

theorem resolveDirStep_ok (fs : FS) (prev : List String) (next : String) :
    resolveDirStep (.ok prev, fs) next =
      match mkdirFS fs (prev ++ [next]) with
      | .ok fs2 => (.ok (prev ++ [next]), fs2)
      | .error (.eexist q) => (.ok q, fs)
      | .error .other => (.error .other, fs) := rfl

theorem resolveDir_error_foldl (segs : List String) (fs : FS) (e : MkErr) :
    segs.foldl resolveDirStep (.error e, fs) = (.error e, fs) := by
  induction segs with
  | nil => rfl
  | cons s rest ih =>
    rw [List.foldl_cons]
    exact ih

theorem resolveDir_id (segs : List String) : ∀ (fs : FS) (base : List String),
    (∀ n, n ≤ segs.length → base ++ segs.take n ∈ fs.dirs) →
    resolveDir fs base segs = (.ok (base ++ segs), fs) := by
  induction segs with
  | nil =>
    intro fs base _
    simp [resolveDir]
  | cons s rest ih =>
    intro fs base h
    have hcur : base ++ [s] ∈ fs.dirs := by
      have h1 := h 1 (by simp)
      simpa using h1
    have hstep : resolveDirStep (.ok base, fs) s = (.ok (base ++ [s]), fs) := by
      rw [resolveDirStep_ok, mkdirFS_eexist fs _ (Or.inl hcur)]
    unfold resolveDir
    rw [List.foldl_cons, hstep]
    have hrest := ih fs (base ++ [s]) (fun n hn => by
      rw [append_cons_eq, ← List.take_succ_cons]
      exact h (n + 1) (by simpa using hn))
    unfold resolveDir at hrest
    rw [hrest, append_cons_eq]

theorem resolveDir_creates (segs : List String) : ∀ (fs : FS) (base : List String),
    base ∈ fs.dirs →
    (∀ n, n ≤ segs.length → base ++ segs.take n ∉ fs.files) →
    ∃ fs' : FS, resolveDir fs base segs = (.ok (base ++ segs), fs')
      ∧ fs'.files = fs.files
      ∧ (∀ q, q ∈ fs.dirs → q ∈ fs'.dirs)
      ∧ (∀ n, n ≤ segs.length → base ++ segs.take n ∈ fs'.dirs)
      ∧ (∀ q, q ∈ fs'.dirs →
          q ∈ fs.dirs ∨ ∃ n, n ≤ segs.length ∧ q = base ++ segs.take n) := by
  induction segs with
  | nil =>
    intro fs base hbase _
    refine ⟨fs, by simp [resolveDir], rfl, fun q hq => hq, ?_, fun q hq => Or.inl hq⟩
    intro n hn
    have hn0 : n = 0 := Nat.le_zero.mp (by simpa using hn)
    subst hn0
    simpa using hbase
  | cons s rest ih =>
    intro fs base hbase hfiles
    have hcurfile : base ++ [s] ∉ fs.files := by
      have h1 := hfiles 1 (by simp)
      simpa using h1
    have hfiles' : ∀ fs2 : FS, fs2.files = fs.files →
        ∀ n, n ≤ rest.length → (base ++ [s]) ++ rest.take n ∉ fs2.files := by
      intro fs2 hf n hn
      rw [hf, append_cons_eq, ← List.take_succ_cons]
      exact hfiles (n + 1) (by simpa using hn)
    by_cases hcur : base ++ [s] ∈ fs.dirs
    · have hstep : resolveDirStep (.ok base, fs) s = (.ok (base ++ [s]), fs) := by
        rw [resolveDirStep_ok, mkdirFS_eexist fs _ (Or.inl hcur)]
      obtain ⟨fs', heq, hf, hmono, htake, hup⟩ :=
        ih fs (base ++ [s]) hcur (hfiles' fs rfl)
      refine ⟨fs', ?_, hf, hmono, ?_, ?_⟩
      · unfold resolveDir at heq ⊢
        rw [List.foldl_cons, hstep, heq, append_cons_eq]
      · intro n hn
        match n with
        | 0 => simpa using hmono base hbase
        | m + 1 =>
          rw [List.take_succ_cons, ← append_cons_eq]
          exact htake m (by simpa using hn)
      · intro q hq
        rcases hup q hq with hq' | ⟨m, hm, hqe⟩
        · exact Or.inl hq'
        · refine Or.inr ⟨m + 1, by simpa using hm, ?_⟩
          rw [List.take_succ_cons, ← append_cons_eq, hqe]
    · have hmk : mkdirFS fs (base ++ [s]) =
          .ok { fs with dirs := (base ++ [s]) :: fs.dirs } :=
        mkdirFS_create fs _ (by tauto)
          (by rw [List.dropLast_concat]; exact hbase)
      have hstep : resolveDirStep (.ok base, fs) s =
          (.ok (base ++ [s]), { fs with dirs := (base ++ [s]) :: fs.dirs }) := by
        rw [resolveDirStep_ok, hmk]
      obtain ⟨fs', heq, hf, hmono, htake, hup⟩ :=
        ih { fs with dirs := (base ++ [s]) :: fs.dirs } (base ++ [s])
          (by simp) (hfiles' _ rfl)
      refine ⟨fs', ?_, hf, ?_, ?_, ?_⟩
      · unfold resolveDir at heq ⊢
        rw [List.foldl_cons, hstep, heq, append_cons_eq]
      · intro q hq
        exact hmono q (by simp [hq])
      · intro n hn
        match n with
        | 0 =>
          have : base ∈ FS.dirs { fs with dirs := (base ++ [s]) :: fs.dirs } := by
            simp [hbase]
          simpa using hmono base this
        | m + 1 =>
          rw [List.take_succ_cons, ← append_cons_eq]
          exact htake m (by simpa using hn)
      · intro q hq
        rcases hup q hq with hq' | ⟨m, hm, hqe⟩
        · simp only [List.mem_cons] at hq'
          rcases hq' with rfl | hq''
          · refine Or.inr ⟨1, by simp, ?_⟩
            simp
          · exact Or.inl hq''
        · refine Or.inr ⟨m + 1, by simpa using hm, ?_⟩
          rw [List.take_succ_cons, ← append_cons_eq, hqe]

/-! Helper lemmas about download and install -/

theorem download_ok (remote : Remote) (fs : FS) (version : String)
    (folder : List String) (hdir : folder ∈ fs.dirs)
    (hao : remote.archiveOk version = true) :
    ∃ fs' : FS, download remote fs version folder =
      (.ok folder, fs',
        [Effect.netDownload version,
         Effect.extract (folder ++ ["tmp", "tmp"]) folder])
    ∧ (∀ q, q ∈ fs'.dirs ↔ q ∈ fs.dirs ∧ ¬ strictUnder folder q)
    ∧ (∀ q, q ∈ fs'.files ↔
        (q ∈ fs.files ∧ ¬ strictUnder folder q) ∨ q = folder ++ binRel) := by
  have h1d : ∀ q, q ∈ (rmDirFS fs folder false).dirs ↔
      q ∈ fs.dirs ∧ ¬ strictUnder folder q := by
    intro q
    rw [rmDirFS_dirs_mem fs folder false q hdir]
    simp
  have h1f : ∀ q, q ∈ (rmDirFS fs folder false).files ↔
      q ∈ fs.files ∧ ¬ strictUnder folder q :=
    fun q => rmDirFS_files_mem fs folder false q hdir
  have hsu_tmp : strictUnder folder (folder ++ ["tmp"]) :=
    strictUnder_append folder ["tmp"] (by simp)
  have hfold1 : folder ∈ (rmDirFS fs folder false).dirs := by
    rw [h1d]
    exact ⟨hdir, not_strictUnder_self folder⟩
  have hmk : mkdirFS (rmDirFS fs folder false) (folder ++ ["tmp"]) =
      .ok { rmDirFS fs folder false with
        dirs := (folder ++ ["tmp"]) :: (rmDirFS fs folder false).dirs } := by
    refine mkdirFS_create _ _ ?_ (by rw [List.dropLast_concat]; exact hfold1)
    rw [h1d, h1f]
    rintro (⟨-, h⟩ | ⟨-, h⟩) <;> exact h hsu_tmp
  refine ⟨rmDirFS
      { dirs := (folder ++ ["tmp"]) :: (rmDirFS fs folder false).dirs,
        files := (folder ++ binRel) :: (folder ++ ["tmp", "tmp"]) ::
          (rmDirFS fs folder false).files }
      (folder ++ ["tmp"]) true, ?_, ?_, ?_⟩
  · simp only [download, hao, if_true, hmk]
  · intro q
    rw [rmDirFS_dirs_mem _ _ _ _ (by simp)]
    simp only [List.mem_cons, h1d]
    constructor
    · rintro ⟨rfl | ⟨hq, hsu⟩, hsutmp, hne⟩
      · exact absurd rfl (hne (by trivial))
      · exact ⟨hq, hsu⟩
    · rintro ⟨hq, hsu⟩
      refine ⟨Or.inr ⟨hq, hsu⟩, ?_, fun _ he => ?_⟩
      · intro hst
        exact hsu (strictUnder_of_append_left "tmp" hst)
      · rw [he] at hsu
        exact hsu hsu_tmp
  · intro q
    rw [rmDirFS_files_mem _ _ _ _ (by simp)]
    simp only [List.mem_cons, h1f]
    constructor
    · rintro ⟨rfl | rfl | ⟨hq, hsu⟩, hsutmp⟩
      · exact Or.inr rfl
      · refine absurd ?_ hsutmp
        rw [← append_cons_eq folder "tmp" ["tmp"]]
        exact strictUnder_append _ ["tmp"] (by simp)
      · exact Or.inl ⟨hq, hsu⟩
    · rintro (⟨hq, hsu⟩ | rfl)
      · refine ⟨Or.inr (Or.inr ⟨hq, hsu⟩), fun hst => ?_⟩
        exact hsu (strictUnder_of_append_left "tmp" hst)
      · refine ⟨Or.inl rfl, ?_⟩
        exact not_strictUnder_append_of_ne _ (by decide)

theorem download_fail (remote : Remote) (fs : FS) (version : String)
    (folder : List String) (hdir : folder ∈ fs.dirs)
    (hao : remote.archiveOk version = false) :
    ∃ fs' : FS, download remote fs version folder =
      (.error Err.downloadNotFound, fs', [Effect.netDownload version])
    ∧ (∀ q, q ∈ fs'.dirs ↔
        (q ∈ fs.dirs ∧ ¬ strictUnder folder q) ∨ q = folder ++ ["tmp"])
    ∧ (∀ q, q ∈ fs'.files ↔ q ∈ fs.files ∧ ¬ strictUnder folder q) := by
  have h1d : ∀ q, q ∈ (rmDirFS fs folder false).dirs ↔
      q ∈ fs.dirs ∧ ¬ strictUnder folder q := by
    intro q
    rw [rmDirFS_dirs_mem fs folder false q hdir]
    simp
  have h1f : ∀ q, q ∈ (rmDirFS fs folder false).files ↔
      q ∈ fs.files ∧ ¬ strictUnder folder q :=
    fun q => rmDirFS_files_mem fs folder false q hdir
  have hsu_tmp : strictUnder folder (folder ++ ["tmp"]) :=
    strictUnder_append folder ["tmp"] (by simp)
  have hfold1 : folder ∈ (rmDirFS fs folder false).dirs := by
    rw [h1d]
    exact ⟨hdir, not_strictUnder_self folder⟩
  have hmk : mkdirFS (rmDirFS fs folder false) (folder ++ ["tmp"]) =
      .ok { rmDirFS fs folder false with
        dirs := (folder ++ ["tmp"]) :: (rmDirFS fs folder false).dirs } := by
    refine mkdirFS_create _ _ ?_ (by rw [List.dropLast_concat]; exact hfold1)
    rw [h1d, h1f]
    rintro (⟨-, h⟩ | ⟨-, h⟩) <;> exact h hsu_tmp
  refine ⟨FS.mk ((folder ++ ["tmp"]) :: (rmDirFS fs folder false).dirs)
      (rmDirFS fs folder false).files, ?_, ?_, ?_⟩
  · simp only [download, hao, Bool.false_eq_true, if_false, hmk]
  · intro q
    simp only [List.mem_cons, h1d]
    tauto
  · intro q
    exact h1f q

theorem ne_of_length_ne {l1 l2 : List String} (h : l1.length ≠ l2.length) :
    l1 ≠ l2 :=
  fun he => h (congrArg List.length he)

theorem install_fast (remote : Remote) (home : List String) (fs : FS)
    (v : String)
    (h4 : (splitDot v).length = 4)
    (hnum : ∀ x ∈ splitDot v, isNumeric x = true)
    (hchain : ∀ n, n ≤ 3 → home ++ (["OpenFin", "Runtime", v].take n) ∈ fs.dirs)
    (hbin : (home ++ ["OpenFin", "Runtime", v]) ++ binRel ∈ fs.files) :
    install remote home fs v =
      (.ok ((home ++ ["OpenFin", "Runtime", v]) ++ binRel), fs,
        [Effect.chmod ((home ++ ["OpenFin", "Runtime", v]) ++ binRel)]) := by
  have hres := resolve_numeric4 remote v h4 hnum
  have hdir := resolveDir_id ["OpenFin", "Runtime", v] fs home (fun n hn =>
    hchain n (by simpa using hn))
  simp only [install, getRuntimePath, hres, hdir]
  rw [if_pos (Or.inl hbin)]
  rfl

theorem install_download (remote : Remote) (home : List String) (fs : FS)
    (v : String)
    (h4 : (splitDot v).length = 4)
    (hnum : ∀ x ∈ splitDot v, isNumeric x = true)
    (hbase : home ∈ fs.dirs)
    (hnof : ∀ n, n ≤ 3 → home ++ (["OpenFin", "Runtime", v].take n) ∉ fs.files)
    (hbinf : (home ++ ["OpenFin", "Runtime", v]) ++ binRel ∉ fs.files)
    (hbind : (home ++ ["OpenFin", "Runtime", v]) ++ binRel ∉ fs.dirs)
    (hao : remote.archiveOk v = true) :
    ∃ fs' : FS,
      install remote home fs v =
        (.ok ((home ++ ["OpenFin", "Runtime", v]) ++ binRel), fs',
          [Effect.netDownload v,
           Effect.extract ((home ++ ["OpenFin", "Runtime", v]) ++ ["tmp", "tmp"])
             (home ++ ["OpenFin", "Runtime", v])])
      ∧ (∀ n, n ≤ 3 → home ++ (["OpenFin", "Runtime", v].take n) ∈ fs'.dirs)
      ∧ (∀ n, n ≤ 3 → home ++ (["OpenFin", "Runtime", v].take n) ∉ fs'.files)
      ∧ (home ++ ["OpenFin", "Runtime", v]) ++ binRel ∈ fs'.files := by
  have hres := resolve_numeric4 remote v h4 hnum
  obtain ⟨fsA, heqA, hfA, hmonoA, htakeA, hupA⟩ :=
    resolveDir_creates ["OpenFin", "Runtime", v] fs home hbase
      (fun n hn => hnof n (by simpa using hn))
  have hfolderA : home ++ ["OpenFin", "Runtime", v] ∈ fsA.dirs := by
    have h3 := htakeA 3 (by simp)
    simpa using h3
  have hchain_len : ∀ n, n ≤ 3 →
      (home ++ (["OpenFin", "Runtime", v].take n)).length ≤ home.length + 3 := by
    intro n hn
    rw [List.length_append, List.length_take]
    omega
  have hrt_len : ((home ++ ["OpenFin", "Runtime", v]) ++ binRel).length =
      home.length + 7 := by
    rw [List.length_append, List.length_append]
    rfl
  have hstatd : (home ++ ["OpenFin", "Runtime", v]) ++ binRel ∉ fsA.dirs := by
    intro hmem
    rcases hupA _ hmem with h | ⟨n, hn, he⟩
    · exact hbind h
    · have := hchain_len n hn
      rw [← he, hrt_len] at this
      omega
  have hstatf : (home ++ ["OpenFin", "Runtime", v]) ++ binRel ∉ fsA.files := by
    rw [hfA]
    exact hbinf
  obtain ⟨fs2, heqD, hdirs2, hfiles2⟩ :=
    download_ok remote fsA v (home ++ ["OpenFin", "Runtime", v]) hfolderA hao
  refine ⟨fs2, ?_, ?_, ?_, ?_⟩
  · simp only [install, getRuntimePath, hres, heqA]
    rw [if_neg (by tauto), heqD]
    rfl
  · intro n hn
    rw [hdirs2]
    refine ⟨htakeA n hn, not_strictUnder_of_length_le ?_⟩
    have h2 : (home ++ ["OpenFin", "Runtime", v]).length = home.length + 3 := by
      rw [List.length_append]
      rfl
    rw [h2]
    exact hchain_len n hn
  · intro n hn
    rw [hfiles2]
    rintro (⟨hq, -⟩ | he)
    · rw [hfA] at hq
      exact hnof n hn hq
    · have := hchain_len n hn
      rw [he, hrt_len] at this
      omega
  · rw [hfiles2]
    exact Or.inr rfl

theorem install_fail (remote : Remote) (home : List String) (fs : FS)
    (v : String)
    (h4 : (splitDot v).length = 4)
    (hnum : ∀ x ∈ splitDot v, isNumeric x = true)
    (hbase : home ∈ fs.dirs)
    (hnof : ∀ n, n ≤ 3 → home ++ (["OpenFin", "Runtime", v].take n) ∉ fs.files)
    (hbinf : (home ++ ["OpenFin", "Runtime", v]) ++ binRel ∉ fs.files)
    (hbind : (home ++ ["OpenFin", "Runtime", v]) ++ binRel ∉ fs.dirs)
    (hao : remote.archiveOk v = false) :
    ∃ fs' : FS,
      install remote home fs v =
        (.error (Err.installFailed v v), fs', [Effect.netDownload v])
      ∧ (∀ q, q ∈ fs.dirs →
          ¬ strictUnder (home ++ ["OpenFin", "Runtime", v]) q → q ∈ fs'.dirs)
      ∧ (∀ q, q ∈ fs.files →
          ¬ strictUnder (home ++ ["OpenFin", "Runtime", v]) q → q ∈ fs'.files) := by
  have hres := resolve_numeric4 remote v h4 hnum
  obtain ⟨fsA, heqA, hfA, hmonoA, htakeA, hupA⟩ :=
    resolveDir_creates ["OpenFin", "Runtime", v] fs home hbase
      (fun n hn => hnof n (by simpa using hn))
  have hfolderA : home ++ ["OpenFin", "Runtime", v] ∈ fsA.dirs := by
    have h3 := htakeA 3 (by simp)
    simpa using h3
  have hchain_len : ∀ n, n ≤ 3 →
      (home ++ (["OpenFin", "Runtime", v].take n)).length ≤ home.length + 3 := by
    intro n hn
    rw [List.length_append, List.length_take]
    omega
  have hrt_len : ((home ++ ["OpenFin", "Runtime", v]) ++ binRel).length =
      home.length + 7 := by
    rw [List.length_append, List.length_append]
    rfl
  have hstatd : (home ++ ["OpenFin", "Runtime", v]) ++ binRel ∉ fsA.dirs := by
    intro hmem
    rcases hupA _ hmem with h | ⟨n, hn, he⟩
    · exact hbind h
    · have := hchain_len n hn
      rw [← he, hrt_len] at this
      omega
  have hstatf : (home ++ ["OpenFin", "Runtime", v]) ++ binRel ∉ fsA.files := by
    rw [hfA]
    exact hbinf
  obtain ⟨fs2, heqD, hdirs2, hfiles2⟩ :=
    download_fail remote fsA v (home ++ ["OpenFin", "Runtime", v]) hfolderA hao
  refine ⟨fs2, ?_, ?_, ?_⟩
  · simp only [install, getRuntimePath, hres, heqA]
    rw [if_neg (by tauto), heqD]
    rfl
  · intro q hq hsu
    rw [hdirs2]
    exact Or.inl ⟨hmonoA q hq, hsu⟩
  · intro q hq hsu
    rw [hfiles2]
    rw [hfA]
    exact ⟨hq, hsu⟩

theorem spawn_not_mem_map (calls : List NetCall) (c a : List String) :
    Effect.spawn c a ∉ calls.map NetCall.toEffect := by
  intro h
  rcases List.mem_map.mp h with ⟨nc, -, he⟩
  cases nc <;> simp [NetCall.toEffect] at he

theorem download_no_spawn (remote : Remote) (fs : FS) (version : String)
    (folder : List String) (c a : List String) :
    Effect.spawn c a ∉ (download remote fs version folder).2.2 := by
  unfold download
  by_cases h : remote.archiveOk version = true
  · simp [h]
  · rw [Bool.not_eq_true] at h
    simp [h]

theorem install_no_spawn (remote : Remote) (home : List String) (fs : FS)
    (voc : String) (c a : List String) :
    Effect.spawn c a ∉ (install remote home fs voc).2.2 := by
  rcases h : resolveRuntimeVersion remote voc with ⟨r, calls⟩
  cases r with
  | error e =>
    simp only [install, h]
    exact spawn_not_mem_map calls c a
  | ok version =>
    rcases h2 : getRuntimePath fs home version with ⟨r2, fs1⟩
    cases r2 with
    | error e2 =>
      simp only [install, h, h2]
      exact spawn_not_mem_map calls c a
    | ok rtFolder =>
      by_cases hstat : rtFolder ++ binRel ∈ fs1.files ∨ rtFolder ++ binRel ∈ fs1.dirs
      · simp only [install, h, h2]
        rw [if_pos hstat]
        simp only [List.mem_append, List.mem_singleton]
        rintro (hm | he)
        · exact spawn_not_mem_map calls c a hm
        · exact absurd he (by simp)
      · rcases h3 : download remote fs1 version rtFolder with ⟨r3, fs2, deffs⟩
        have hds := download_no_spawn remote fs1 version rtFolder c a
        rw [h3] at hds
        simp only [install, h, h2, h3]
        rw [if_neg hstat]
        cases r3 with
        | ok x =>
          simp only [List.mem_append, not_or]
          exact ⟨spawn_not_mem_map calls c a, hds⟩
        | error e3 =>
          simp only [List.mem_append, not_or]
          exact ⟨spawn_not_mem_map calls c a, hds⟩

/-! Helper lemmas about strings and the launch argument vector -/

theorem string_append_ne (p q a b : String) (i : Nat)
    (hp : i < p.data.length) (hq : i < q.data.length)
    (hne : p.data.get? i ≠ q.data.get? i) :
    p ++ a ≠ q ++ b := by
  intro h
  have hd : p.data ++ a.data = q.data ++ b.data := by
    have h2 := congrArg String.data h
    rwa [String.data_append, String.data_append] at h2
  have h1 : (p.data ++ a.data).get? i = p.data.get? i := List.get?_append hp
  have h2 : (q.data ++ b.data).get? i = q.data.get? i := List.get?_append hq
  rw [hd] at h1
  exact hne (h1.symm.trans h2)

theorem string_append_left_cancel {s a b : String} (h : s ++ a = s ++ b) :
    a = b := by
  have hd := congrArg String.data h
  rw [String.data_append, String.data_append] at hd
  have hab := List.append_cancel_left hd
  cases a
  cases b
  exact congrArg String.mk (by simpa using hab)

theorem launchArgs_eq (config : RuntimeConfig) (m pipe : String) (fb : Bool) :
    launchArgs config m pipe fb =
      ["--startup-url=" ++ m]
      ++ (if (config.additionalArgument.getD "") ≠ "" then
            splitSpace (config.additionalArgument.getD "")
          else [])
      ++ ["--version-keyword=" ++
            (if fb then config.fallbackVersion.getD "undefined"
             else config.version),
          "--runtime-information-channel-v6=" ++ pipe]
      ++ (if (config.securityRealm.getD "") ≠ "" then
            ["--security-realm=" ++ config.securityRealm.getD ""]
          else [])
      ++ (if config.verboseLogging then ["--v=1", "--attach-console"]
          else []) := by
  unfold launchArgs
  by_cases h1 : (config.additionalArgument.getD "") ≠ "" <;>
    by_cases h2 : (config.securityRealm.getD "") ≠ "" <;>
      by_cases h3 : config.verboseLogging = true <;>
        simp [h1, h2, h3]

/-! Claim theorems -/

/-- C1: for every version spec whose trailing components are the only
wildcards (a dotted 4-component spec with a fixed numeric prefix),
`resolveRuntimeVersion` fetches the remote version index once and returns
the first entry, in index order, whose leading components equal the fixed
prefix of the spec.  Determinism of re-running against an unchanged index is
immediate: the embedded resolver is a pure function of the remote index, so
the pinned result equation is the result of every run. -/
theorem C1_wildcard_returns_first_prefix_match (remote : Remote)
    (spec m body : String) (pre wild : List String)
    (hsplit : splitDot spec = pre ++ wild)
    (hlen : pre.length + wild.length = 4)
    (hpre : ∀ x ∈ pre, isNumeric x = true)
    (hwildne : wild ≠ [])
    (hwild : ∀ x ∈ wild, x = "*")
    (hbody : remote.versionsBody = some body)
    (hfirst : first (splitCRLF body)
        (fun v => joinDot ((splitDot v).take pre.length) == joinDot pre) =
      some m) :
    resolveRuntimeVersion remote spec = (.ok m, [NetCall.getVersions]) :=
  resolve_wildcard remote spec m body pre wild hsplit hlen hpre hwildne hwild
    hbody hfirst

/-- Witness for C1: the scenario of the specification, resolving
`10.*.*.*` against the index `10.65.1.2, 10.65.0.9, 9.0.0.0`. -/
theorem C1_witness :
    resolveRuntimeVersion remoteIdx "10.*.*.*" =
      (.ok "10.65.1.2", [NetCall.getVersions]) :=
  C1_wildcard_returns_first_prefix_match remoteIdx "10.*.*.*" "10.65.1.2"
    "10.65.1.2\r\n10.65.0.9\r\n9.0.0.0" ["10"] ["*", "*", "*"]
    (by decide) (by decide) (by decide) (by decide) (by decide) rfl (by decide)

/-- C2: a fully numeric dotted 4-component version spec is returned
unchanged by both implementations of `resolveRuntimeVersion`, with no
network call recorded. -/
theorem C2_numeric_identity_no_network (remote : Remote) (v : String)
    (h4 : (splitDot v).length = 4)
    (hnum : ∀ x ∈ splitDot v, isNumeric x = true) :
    resolveRuntimeVersion remote v = (.ok v, [])
    ∧ resolveRuntimeVersionP0 remote v = (.ok v, []) :=
  ⟨resolve_numeric4 remote v h4 hnum, resolveP0_numeric4 remote v h4 hnum⟩

/-- Witness for C2 at the concrete version `10.65.1.2`. -/
theorem C2_witness :
    resolveRuntimeVersion remoteIdx "10.65.1.2" = (.ok "10.65.1.2", [])
    ∧ resolveRuntimeVersionP0 remoteIdx "10.65.1.2" = (.ok "10.65.1.2", []) :=
  C2_numeric_identity_no_network remoteIdx "10.65.1.2" (by decide) (by decide)

/-- C8: directory creation along an installation path is create-or-adopt.
Under a base directory that exists, with no file occupying any prefix of the
path, the segment-by-segment fold succeeds and returns the full path even
when intermediate segments already exist (an `EEXIST` failure is adopted
and the walk continues); any other creation error is propagated: once the
accumulator carries an error, the remaining fold leaves it unchanged. -/
theorem C8_create_or_adopt (fs : FS) (base segs : List String) (e : MkErr)
    (hbase : base ∈ fs.dirs)
    (hnofile : ∀ n, n ≤ segs.length → base ++ segs.take n ∉ fs.files) :
    (∃ fs', resolveDir fs base segs = (.ok (base ++ segs), fs'))
    ∧ segs.foldl resolveDirStep (.error e, fs) = (.error e, fs) := by
  obtain ⟨fs', heq, -, -, -, -⟩ := resolveDir_creates segs fs base hbase hnofile
  exact ⟨⟨fs', heq⟩, resolveDir_error_foldl segs fs e⟩

/-- Witness for C8: the walk adopts the already existing `h/OpenFin`
segment and creates the rest. -/
theorem C8_witness :
    (∃ fs', resolveDir fsAdoptW ["h"] ["OpenFin", "Runtime", "10.0.0.0"] =
      (.ok (["h"] ++ ["OpenFin", "Runtime", "10.0.0.0"]), fs'))
    ∧ ["OpenFin", "Runtime", "10.0.0.0"].foldl resolveDirStep
        (.error MkErr.other, fsAdoptW) = (.error MkErr.other, fsAdoptW) :=
  C8_create_or_adopt fsAdoptW ["h"] ["OpenFin", "Runtime", "10.0.0.0"]
    MkErr.other (by decide) (by decide)

/-- C9 counterexample: the claim asserts the two implementations resolve
`*.*.*.*` to different results over the same remote index; on the concrete
index `10.65.1.2, 9.0.0.0` both implementations return the same result,
namely the first index entry. -/
theorem C9_counterexample :
    resolveRuntimeVersion remoteIdx2 "*.*.*.*" =
      resolveRuntimeVersionP0 remoteIdx2 "*.*.*.*"
    ∧ resolveRuntimeVersion remoteIdx2 "*.*.*.*" =
      (.ok "10.65.1.2", [NetCall.getVersions]) :=
  ⟨rfl, rfl⟩

/-- C9 amended: the two implementations of `resolveRuntimeVersion` resolve
the fully wildcarded 4-component spec `*.*.*.*` identically against every
remote: both treat it as a version pattern with an empty fixed prefix,
fetch the version index, and return its first entry. -/
theorem C9_amended_consistent (remote : Remote) :
    resolveRuntimeVersion remote "*.*.*.*" =
      resolveRuntimeVersionP0 remote "*.*.*.*" := by
  rcases remote with ⟨vb, ch, ao⟩
  cases vb <;> rfl

/-- Witness for C9 amended at a concrete remote. -/
theorem C9_witness :
    resolveRuntimeVersion remoteIdx "*.*.*.*" =
      resolveRuntimeVersionP0 remoteIdx "*.*.*.*" :=
  C9_amended_consistent remoteIdx

/-- C10: in the `util.ts` implementation a fully numeric dotted spec of two
or three components is treated as a version pattern: the version index is
fetched and the first entry whose leading components equal the spec is
returned, rather than the spec being returned unchanged or treated as a
channel name.  The `part_000` implementation, requiring exactly four
components, resolves the same spec through the channel-lookup endpoint. -/
theorem C10_short_numeric_is_pattern_in_util (remote : Remote)
    (spec m body : String)
    (hlen : (splitDot spec).length = 2 ∨ (splitDot spec).length = 3)
    (hnum : ∀ x ∈ splitDot spec, isNumeric x = true)
    (hbody : remote.versionsBody = some body)
    (hfirst : first (splitCRLF body)
        (fun v => joinDot ((splitDot v).take (splitDot spec).length) ==
          joinDot (splitDot spec)) = some m) :
    resolveRuntimeVersion remote spec = (.ok m, [NetCall.getVersions])
    ∧ resolveRuntimeVersionP0 remote spec = channelLookup remote spec [] := by
  refine ⟨resolve_short_numeric remote spec m body hlen hnum hbody hfirst, ?_⟩
  refine resolveP0_not4 remote spec ?_
  rcases hlen with h | h <;> omega

/-- Witness for C10 at the spec `10.5`: `util.ts` returns the index entry
`10.5.1.2`, `part_000` performs the channel lookup. -/
theorem C10_witness :
    resolveRuntimeVersion remoteShort "10.5" =
      (.ok "10.5.1.2", [NetCall.getVersions])
    ∧ resolveRuntimeVersionP0 remoteShort "10.5" =
      channelLookup remoteShort "10.5" [] :=
  C10_short_numeric_is_pattern_in_util remoteShort "10.5" "10.5.1.2"
    "10.5.1.2\r\n9.0.0.0" (by decide) (by decide) rfl (by decide)

/-- C3: `install` is idempotent.  First part: when the runtime binary
already exists at the expected path below the installation directory of a
concrete fully numeric version, the call performs exactly the
permission-repair `chmod` and returns the binary path, with no download,
extraction, or network effect and the filesystem unchanged.  Second part:
when the binary is absent and the archive is available, the first call
performs exactly one download and one extraction, and a second call on the
resulting filesystem short-circuits through the existence check to the
`chmod`-only fast path, so two calls in a row perform exactly one
download and extraction. -/
theorem C3_install_idempotent (remote : Remote) (home : List String)
    (fs : FS) (v : String)
    (h4 : (splitDot v).length = 4)
    (hnum : ∀ x ∈ splitDot v, isNumeric x = true) :
    ((∀ n, n ≤ 3 → home ++ (["OpenFin", "Runtime", v].take n) ∈ fs.dirs) →
      (home ++ ["OpenFin", "Runtime", v]) ++ binRel ∈ fs.files →
      install remote home fs v =
        (.ok ((home ++ ["OpenFin", "Runtime", v]) ++ binRel), fs,
          [Effect.chmod ((home ++ ["OpenFin", "Runtime", v]) ++ binRel)]))
    ∧ (home ∈ fs.dirs →
      (∀ n, n ≤ 3 → home ++ (["OpenFin", "Runtime", v].take n) ∉ fs.files) →
      (home ++ ["OpenFin", "Runtime", v]) ++ binRel ∉ fs.files →
      (home ++ ["OpenFin", "Runtime", v]) ++ binRel ∉ fs.dirs →
      remote.archiveOk v = true →
      ∃ fs' : FS,
        install remote home fs v =
          (.ok ((home ++ ["OpenFin", "Runtime", v]) ++ binRel), fs',
            [Effect.netDownload v,
             Effect.extract ((home ++ ["OpenFin", "Runtime", v]) ++ ["tmp", "tmp"])
               (home ++ ["OpenFin", "Runtime", v])])
        ∧ install remote home fs' v =
            (.ok ((home ++ ["OpenFin", "Runtime", v]) ++ binRel), fs',
              [Effect.chmod ((home ++ ["OpenFin", "Runtime", v]) ++ binRel)])) := by
  constructor
  · intro hchain hbin
    exact install_fast remote home fs v h4 hnum hchain hbin
  · intro hbase hnof hbinf hbind hao
    obtain ⟨fs', heq1, hchain', hnof', hbin'⟩ :=
      install_download remote home fs v h4 hnum hbase hnof hbinf hbind hao
    exact ⟨fs', heq1, install_fast remote home fs' v h4 hnum hchain' hbin'⟩

/-- Witness for C3: with the `10.65.1.2` binary already on disk, `install`
performs only the permission repair and touches neither the network nor the
filesystem. -/
theorem C3_witness :
    install remoteArch ["h"] fsBinW "10.65.1.2" =
      (.ok ((["h"] ++ ["OpenFin", "Runtime", "10.65.1.2"]) ++ binRel), fsBinW,
        [Effect.chmod ((["h"] ++ ["OpenFin", "Runtime", "10.65.1.2"]) ++ binRel)]) :=
  (C3_install_idempotent remoteArch ["h"] fsBinW "10.65.1.2"
    (by decide) (by decide)).1 (by decide) (by decide)

/-- C7 counterexample: the claim asserts the only deletion below the
installation directory is the transient staging subdirectory; on a
filesystem whose installation directory holds the pre-existing file
`keep.txt` (which is not the staging subdirectory nor below it), `download`
deletes that file. -/
theorem C7_counterexample :
    ["h", "R", "keep.txt"] ∈ fsKeepW.files
    ∧ ["h", "R", "keep.txt"] ∉
        (download remoteArch fsKeepW "1.2.3.4" ["h", "R"]).2.1.files
    ∧ ¬ strictUnder (["h", "R"] ++ ["tmp"]) ["h", "R", "keep.txt"]
    ∧ ["h", "R", "keep.txt"] ≠ ["h", "R"] ++ ["tmp"] := by
  refine ⟨by decide, by decide, by decide, by decide⟩

/-- C7 amended: the deletions `download` performs below the installation
directory are exactly its pre-existing contents (the directory is cleared
at the start of a fresh download) together with the staging subdirectory:
every path deleted by `download` lies strictly below the installation
directory, the installation directory itself is never deleted, and on a
successful download the staging subdirectory and the staged archive file
are absent afterwards.  (On a failed download the staging subdirectory is
left behind.) -/
theorem C7_amended_clears_folder_contents (remote : Remote) (fs : FS)
    (version : String) (folder : List String)
    (hdir : folder ∈ fs.dirs) :
    ∀ r fs' effs, download remote fs version folder = (r, fs', effs) →
      folder ∈ fs'.dirs
      ∧ (∀ q, (q ∈ fs.dirs ∧ q ∉ fs'.dirs) ∨ (q ∈ fs.files ∧ q ∉ fs'.files) →
          strictUnder folder q)
      ∧ (remote.archiveOk version = true →
          folder ++ ["tmp"] ∉ fs'.dirs ∧ folder ++ ["tmp", "tmp"] ∉ fs'.files) := by
  intro r fs' effs heq
  by_cases hao : remote.archiveOk version = true
  · obtain ⟨fs2, heq2, hdirs2, hfiles2⟩ :=
      download_ok remote fs version folder hdir hao
    rw [heq] at heq2
    have hfs : fs' = fs2 := congrArg (fun t => t.2.1) heq2
    rw [← hfs] at hdirs2 hfiles2
    refine ⟨?_, ?_, ?_⟩
    · rw [hdirs2]
      exact ⟨hdir, not_strictUnder_self folder⟩
    · rintro q (⟨hq, hnq⟩ | ⟨hq, hnq⟩)
      · by_contra hns
        exact hnq ((hdirs2 q).mpr ⟨hq, hns⟩)
      · by_contra hns
        exact hnq ((hfiles2 q).mpr (Or.inl ⟨hq, hns⟩))
    · intro _
      constructor
      · rw [hdirs2]
        rintro ⟨-, hns⟩
        exact hns (strictUnder_append folder ["tmp"] (by simp))
      · rw [hfiles2]
        rintro (⟨-, hns⟩ | he)
        · exact hns (strictUnder_append folder ["tmp", "tmp"] (by simp))
        · exact absurd (List.append_cancel_left he) (by decide)
  · have hao' : remote.archiveOk version = false := by
      rwa [Bool.not_eq_true] at hao
    obtain ⟨fs2, heq2, hdirs2, hfiles2⟩ :=
      download_fail remote fs version folder hdir hao'
    rw [heq] at heq2
    have hfs : fs' = fs2 := congrArg (fun t => t.2.1) heq2
    rw [← hfs] at hdirs2 hfiles2
    refine ⟨?_, ?_, fun hx => absurd hx hao⟩
    · rw [hdirs2]
      exact Or.inl ⟨hdir, not_strictUnder_self folder⟩
    · rintro q (⟨hq, hnq⟩ | ⟨hq, hnq⟩)
      · by_contra hns
        exact hnq ((hdirs2 q).mpr (Or.inl ⟨hq, hns⟩))
      · by_contra hns
        exact hnq ((hfiles2 q).mpr ⟨hq, hns⟩)

/-- Witness for C7 amended on a concrete download. -/
theorem C7_witness :
    ["h", "R"] ∈ (download remoteArch fsKeepW "1.2.3.4" ["h", "R"]).2.1.dirs
    ∧ (["h", "R"] ++ ["tmp"]) ∉
        (download remoteArch fsKeepW "1.2.3.4" ["h", "R"]).2.1.dirs := by
  obtain ⟨h1, -, h3⟩ :=
    C7_amended_clears_folder_contents remoteArch fsKeepW "1.2.3.4" ["h", "R"]
      (by decide) (download remoteArch fsKeepW "1.2.3.4" ["h", "R"]).1
      (download remoteArch fsKeepW "1.2.3.4" ["h", "R"]).2.1
      (download remoteArch fsKeepW "1.2.3.4" ["h", "R"]).2.2 rfl
  exact ⟨h1, (h3 (by decide)).1⟩

/-- C4: with a fallback version configured, when installing the requested
version fails (here: its archive download is rejected) the launcher
installs the fallback version instead and spawns its binary, and the
spawned argument vector carries the version keyword of the fallback
version, the one that actually launched, and not of the originally
requested version.  (Stated for configurations without caller-supplied
extra arguments, a security realm, or verbose logging, matching the
scenario; extra arguments chosen by the caller could themselves contain
arbitrary strings.) -/
theorem C4_fallback_version_keyword (remote : Remote) (home : List String)
    (fs : FS) (config : RuntimeConfig) (m pipe fbv : String)
    (hfb : config.fallbackVersion = some fbv)
    (hextra : config.additionalArgument = none)
    (hrealm : config.securityRealm = none)
    (hverb : config.verboseLogging = false)
    (hv4 : (splitDot config.version).length = 4)
    (hvnum : ∀ x ∈ splitDot config.version, isNumeric x = true)
    (hbase : home ∈ fs.dirs)
    (hnof : ∀ n, n ≤ 3 →
      home ++ (["OpenFin", "Runtime", config.version].take n) ∉ fs.files)
    (hbinf : (home ++ ["OpenFin", "Runtime", config.version]) ++ binRel ∉ fs.files)
    (hbind : (home ++ ["OpenFin", "Runtime", config.version]) ++ binRel ∉ fs.dirs)
    (hao : remote.archiveOk config.version = false)
    (hfb4 : (splitDot fbv).length = 4)
    (hfbnum : ∀ x ∈ splitDot fbv, isNumeric x = true)
    (hne : fbv ≠ config.version)
    (hchainF : ∀ n, n ≤ 3 →
      home ++ (["OpenFin", "Runtime", fbv].take n) ∈ fs.dirs)
    (hbinF : (home ++ ["OpenFin", "Runtime", fbv]) ++ binRel ∈ fs.files) :
    ∃ fs' : FS,
      launch remote home fs config m pipe =
        (.ok ⟨(home ++ ["OpenFin", "Runtime", fbv]) ++ binRel,
            ["--startup-url=" ++ m, "--version-keyword=" ++ fbv,
             "--runtime-information-channel-v6=" ++ pipe]⟩, fs',
          [Effect.netDownload config.version,
           Effect.chmod ((home ++ ["OpenFin", "Runtime", fbv]) ++ binRel),
           Effect.spawn ((home ++ ["OpenFin", "Runtime", fbv]) ++ binRel)
             ["--startup-url=" ++ m, "--version-keyword=" ++ fbv,
              "--runtime-information-channel-v6=" ++ pipe]])
      ∧ ("--version-keyword=" ++ fbv) ∈
          ["--startup-url=" ++ m, "--version-keyword=" ++ fbv,
           "--runtime-information-channel-v6=" ++ pipe]
      ∧ ("--version-keyword=" ++ config.version) ∉
          ["--startup-url=" ++ m, "--version-keyword=" ++ fbv,
           "--runtime-information-channel-v6=" ++ pipe] := by
  obtain ⟨fs1, heq1, hdirs1, hfiles1⟩ :=
    install_fail remote home fs config.version hv4 hvnum hbase hnof hbinf
      hbind hao
  have hfolV_len : (home ++ ["OpenFin", "Runtime", config.version]).length =
      home.length + 3 := by
    rw [List.length_append]
    rfl
  have hchainF1 : ∀ n, n ≤ 3 →
      home ++ (["OpenFin", "Runtime", fbv].take n) ∈ fs1.dirs := by
    intro n hn
    refine hdirs1 _ (hchainF n hn) (not_strictUnder_of_length_le ?_)
    rw [hfolV_len, List.length_append, List.length_take]
    omega
  have hsuF : ¬ strictUnder (home ++ ["OpenFin", "Runtime", config.version])
      ((home ++ ["OpenFin", "Runtime", fbv]) ++ binRel) := by
    have e1 : home ++ ["OpenFin", "Runtime", config.version] =
        (home ++ ["OpenFin", "Runtime"]) ++ [config.version] := by
      rw [List.append_assoc]
      rfl
    have e2 : (home ++ ["OpenFin", "Runtime", fbv]) ++ binRel =
        (home ++ ["OpenFin", "Runtime"]) ++ fbv :: binRel := by
      rw [List.append_assoc, List.append_assoc]
      rfl
    rw [e1, e2]
    exact not_strictUnder_append_of_ne binRel (fun h => hne h.symm)
  have hbinF1 : (home ++ ["OpenFin", "Runtime", fbv]) ++ binRel ∈ fs1.files :=
    hfiles1 _ hbinF hsuF
  have hfast := install_fast remote home fs1 fbv hfb4 hfbnum hchainF1 hbinF1
  have hargs : launchArgs config m pipe true =
      ["--startup-url=" ++ m, "--version-keyword=" ++ fbv,
       "--runtime-information-channel-v6=" ++ pipe] := by
    rw [launchArgs_eq]
    simp [hextra, hrealm, hverb, hfb]
  refine ⟨fs1, ?_, by simp, ?_⟩
  · simp only [launch, heq1, hfb, hfast, hargs]
    rfl
  · intro hmem
    simp only [List.mem_cons, List.not_mem_nil, or_false] at hmem
    rcases hmem with h | h | h
    · exact string_append_ne "--version-keyword=" "--startup-url=" _ _ 2
        (by decide) (by decide) (by decide) h
    · exact hne (string_append_left_cancel h).symm
    · exact string_append_ne "--version-keyword="
        "--runtime-information-channel-v6=" _ _ 2
        (by decide) (by decide) (by decide) h

/-- Witness for C4: requesting `1.2.3.4` (archive unavailable) with the
installed fallback `10.65.1.2`. -/
theorem C4_witness :
    ∃ fs' : FS,
      launch remoteNoArch ["h"] fsBinW cfgC4 "man" "pipe" =
        (.ok ⟨(["h"] ++ ["OpenFin", "Runtime", "10.65.1.2"]) ++ binRel,
            ["--startup-url=" ++ "man", "--version-keyword=" ++ "10.65.1.2",
             "--runtime-information-channel-v6=" ++ "pipe"]⟩, fs',
          [Effect.netDownload cfgC4.version,
           Effect.chmod ((["h"] ++ ["OpenFin", "Runtime", "10.65.1.2"]) ++ binRel),
           Effect.spawn ((["h"] ++ ["OpenFin", "Runtime", "10.65.1.2"]) ++ binRel)
             ["--startup-url=" ++ "man", "--version-keyword=" ++ "10.65.1.2",
              "--runtime-information-channel-v6=" ++ "pipe"]])
      ∧ ("--version-keyword=" ++ "10.65.1.2") ∈
          ["--startup-url=" ++ "man", "--version-keyword=" ++ "10.65.1.2",
           "--runtime-information-channel-v6=" ++ "pipe"]
      ∧ ("--version-keyword=" ++ cfgC4.version) ∉
          ["--startup-url=" ++ "man", "--version-keyword=" ++ "10.65.1.2",
           "--runtime-information-channel-v6=" ++ "pipe"] :=
  C4_fallback_version_keyword remoteNoArch ["h"] fsBinW cfgC4 "man" "pipe"
    "10.65.1.2" rfl rfl rfl rfl (by decide) (by decide) (by decide)
    (by decide) (by decide) (by decide) (by decide) (by decide) (by decide)
    (by decide) (by decide) (by decide)

/-- C5 counterexample: the claim orders caller-supplied extra arguments
before the startup-manifest argument; the source pushes the
startup-manifest argument to the front, so with extra arguments
`--foo --bar` the actual vector starts with the startup-manifest argument
and differs from the claimed ordering. -/
theorem C5_counterexample :
    (launch remoteArch ["h"] fsBinW cfgC5 "man" "pipe").1 =
      .ok ⟨(["h"] ++ ["OpenFin", "Runtime", "10.65.1.2"]) ++ binRel,
        ["--startup-url=man", "--foo", "--bar", "--version-keyword=10.65.1.2",
         "--runtime-information-channel-v6=pipe"]⟩
    ∧ ["--startup-url=man", "--foo", "--bar", "--version-keyword=10.65.1.2",
       "--runtime-information-channel-v6=pipe"] ≠
      ["--foo", "--bar", "--startup-url=man", "--version-keyword=10.65.1.2",
       "--runtime-information-channel-v6=pipe"] :=
  ⟨rfl, by decide⟩

/-- C5 amended: the argument vector passed to the spawned binary is ordered
as the mandatory startup-manifest argument first, then any caller-supplied
extra arguments (space-split), then the version-keyword argument, then the
channel argument, then, when configured, the security-realm argument and
the verbose-logging flags.  (Stated through a fast-path install: binary
already present.) -/
theorem C5_amended_arg_order (remote : Remote) (home : List String)
    (fs : FS) (config : RuntimeConfig) (m pipe : String)
    (h4 : (splitDot config.version).length = 4)
    (hnum : ∀ x ∈ splitDot config.version, isNumeric x = true)
    (hchain : ∀ n, n ≤ 3 →
      home ++ (["OpenFin", "Runtime", config.version].take n) ∈ fs.dirs)
    (hbin : (home ++ ["OpenFin", "Runtime", config.version]) ++ binRel ∈ fs.files) :
    launch remote home fs config m pipe =
      (.ok ⟨(home ++ ["OpenFin", "Runtime", config.version]) ++ binRel,
          ["--startup-url=" ++ m]
          ++ (if (config.additionalArgument.getD "") ≠ "" then
                splitSpace (config.additionalArgument.getD "")
              else [])
          ++ ["--version-keyword=" ++ config.version,
              "--runtime-information-channel-v6=" ++ pipe]
          ++ (if (config.securityRealm.getD "") ≠ "" then
                ["--security-realm=" ++ config.securityRealm.getD ""]
              else [])
          ++ (if config.verboseLogging then ["--v=1", "--attach-console"]
              else [])⟩, fs,
        [Effect.chmod ((home ++ ["OpenFin", "Runtime", config.version]) ++ binRel),
         Effect.spawn ((home ++ ["OpenFin", "Runtime", config.version]) ++ binRel)
           (["--startup-url=" ++ m]
            ++ (if (config.additionalArgument.getD "") ≠ "" then
                  splitSpace (config.additionalArgument.getD "")
                else [])
            ++ ["--version-keyword=" ++ config.version,
                "--runtime-information-channel-v6=" ++ pipe]
            ++ (if (config.securityRealm.getD "") ≠ "" then
                  ["--security-realm=" ++ config.securityRealm.getD ""]
                else [])
            ++ (if config.verboseLogging then ["--v=1", "--attach-console"]
                else []))]) := by
  have hfast := install_fast remote home fs config.version h4 hnum hchain hbin
  have hargs := launchArgs_eq config m pipe false
  simp only [Bool.false_eq_true, if_false] at hargs
  simp only [launch, hfast, hargs]
  rfl

/-- Witness for C5 amended with every optional argument configured. -/
theorem C5_witness :
    launch remoteArch ["h"] fsBinW cfgC5w "man" "pipe" =
      (.ok ⟨(["h"] ++ ["OpenFin", "Runtime", "10.65.1.2"]) ++ binRel,
          ["--startup-url=" ++ "man"]
          ++ (if (cfgC5w.additionalArgument.getD "") ≠ "" then
                splitSpace (cfgC5w.additionalArgument.getD "")
              else [])
          ++ ["--version-keyword=" ++ cfgC5w.version,
              "--runtime-information-channel-v6=" ++ "pipe"]
          ++ (if (cfgC5w.securityRealm.getD "") ≠ "" then
                ["--security-realm=" ++ cfgC5w.securityRealm.getD ""]
              else [])
          ++ (if cfgC5w.verboseLogging then ["--v=1", "--attach-console"]
              else [])⟩, fsBinW,
        [Effect.chmod ((["h"] ++ ["OpenFin", "Runtime", "10.65.1.2"]) ++ binRel),
         Effect.spawn ((["h"] ++ ["OpenFin", "Runtime", "10.65.1.2"]) ++ binRel)
           (["--startup-url=" ++ "man"]
            ++ (if (cfgC5w.additionalArgument.getD "") ≠ "" then
                  splitSpace (cfgC5w.additionalArgument.getD "")
                else [])
            ++ ["--version-keyword=" ++ cfgC5w.version,
                "--runtime-information-channel-v6=" ++ "pipe"]
            ++ (if (cfgC5w.securityRealm.getD "") ≠ "" then
                  ["--security-realm=" ++ cfgC5w.securityRealm.getD ""]
                else [])
            ++ (if cfgC5w.verboseLogging then ["--v=1", "--attach-console"]
                else []))]) :=
  C5_amended_arg_order remoteArch ["h"] fsBinW cfgC5w "man" "pipe"
    (by decide) (by decide) (by decide) (by decide)

/-- C6 counterexample: with a configured fallback whose install also fails,
`launch` rejects with the error of the fallback install attempt, not with
the original error of the requested version: requesting `1.2.3.4` with
fallback `5.6.7.8` (both archives unavailable) rejects with
`Could not install runtime 5.6.7.8`, while the original error was
`Could not install runtime 1.2.3.4`. -/
theorem C6_counterexample :
    (launch remoteNoArch ["h"] fsChainW cfgC6 "man" "pipe").1 =
      .error (Err.installFailed "5.6.7.8" "5.6.7.8")
    ∧ (install remoteNoArch ["h"] fsChainW "1.2.3.4").1 =
        .error (Err.installFailed "1.2.3.4" "1.2.3.4")
    ∧ Err.installFailed "5.6.7.8" "5.6.7.8" ≠
        Err.installFailed "1.2.3.4" "1.2.3.4" :=
  ⟨rfl, rfl, by decide⟩

/-- C6 amended: when installing the requested version fails and no fallback
version is configured, `launch` rejects with the original install error and
spawns no process; when a fallback version is configured and its install
also fails, `launch` rejects with the error of the fallback install attempt
(not the original error) and spawns no process.  At most one fallback retry
is applied: the rejection in the second case is exactly the outcome of the
single fallback attempt. -/
theorem C6_amended_error_propagation (remote : Remote) (home : List String)
    (fs : FS) (config : RuntimeConfig) (m pipe : String) (e : Err)
    (fs1 : FS) (eff1 : List Effect)
    (h1 : install remote home fs config.version = (.error e, fs1, eff1)) :
    (config.fallbackVersion = none →
      launch remote home fs config m pipe = (.error e, fs1, eff1)
      ∧ ∀ c a, Effect.spawn c a ∉ eff1)
    ∧ (∀ fbv e2 fs2 eff2, config.fallbackVersion = some fbv →
        install remote home fs1 fbv = (.error e2, fs2, eff2) →
        launch remote home fs config m pipe = (.error e2, fs2, eff1 ++ eff2)
        ∧ ∀ c a, Effect.spawn c a ∉ eff1 ++ eff2) := by
  have hns1 : ∀ c a, Effect.spawn c a ∉ eff1 := by
    intro c a
    have h := install_no_spawn remote home fs config.version c a
    rw [h1] at h
    exact h
  constructor
  · intro hnone
    refine ⟨?_, hns1⟩
    simp only [launch, h1, hnone]
  · intro fbv e2 fs2 eff2 hsome h2
    have hns2 : ∀ c a, Effect.spawn c a ∉ eff2 := by
      intro c a
      have h := install_no_spawn remote home fs1 fbv c a
      rw [h2] at h
      exact h
    refine ⟨?_, ?_⟩
    · simp only [launch, h1, hsome, h2]
    · intro c a
      simp only [List.mem_append, not_or]
      exact ⟨hns1 c a, hns2 c a⟩

/-- Witness for C6 amended: both installs fail concretely and the fallback
error is the one surfaced, with no spawn effect recorded. -/
theorem C6_witness :
    launch remoteNoArch ["h"] fsChainW cfgC6 "man" "pipe" =
      (.error (Err.installFailed "5.6.7.8" "5.6.7.8"), fs2C6,
        [Effect.netDownload "1.2.3.4"] ++ [Effect.netDownload "5.6.7.8"])
    ∧ ∀ c a, Effect.spawn c a ∉
        [Effect.netDownload "1.2.3.4"] ++ [Effect.netDownload "5.6.7.8"] :=
  (C6_amended_error_propagation remoteNoArch ["h"] fsChainW cfgC6 "man" "pipe"
    (Err.installFailed "1.2.3.4" "1.2.3.4") fs1C6 [Effect.netDownload "1.2.3.4"]
    (by decide)).2 "5.6.7.8" (Err.installFailed "5.6.7.8" "5.6.7.8") fs2C6
    [Effect.netDownload "5.6.7.8"] rfl (by decide)

end NodeAdapter
